import Mathlib

/-!
Verification development for the image-pasting layout engine (src/paste.py).

The program scans a directory tree, and for each directory that directly
contains at least one regular file it writes a row-block into a worksheet:
a thick top border across all columns, the directory path in column 1,
and for each target filename a label cell plus (when the image loads)
an embedded resized image; afterwards it draws a right-side border down
column 1 and advances the cursor.

The embedding below models the worksheet as a trace of write events, the
filesystem as a tree of directories (each with its regular files and the
decoded pixel dimensions of the ones that are readable images), and the
engine as pure functions producing the event trace plus the final cursor
state, or an abort marker for the AttributeError that the script raises
when the per-image row span is read before it was ever assigned.
-/

namespace PasteApp

/-- Decoded image dimensions, in the order OpenCV reports them:
img.shape[:2] = (height, width). -/
structure ImgData where
  height : Nat
  width : Nat
deriving DecidableEq

/-- A regular file directly inside a directory. The image field holds the
decoded dimensions when imread succeeds on the file, and none when the file
is not a decodable image (imread returns None). -/
structure FileEntry where
  name : String
  image : Option ImgData
deriving DecidableEq

/-- A directory tree: the regular files directly inside, and the named
subdirectories. The order of the subdirectory list is the order in which
the directory scan enumerates them. -/
inductive FSTree where
  | node (files : List FileEntry) (subdirs : List (String × FSTree))

/-- Regular files directly inside the root node of a tree. -/
def FSTree.files : FSTree → List FileEntry
  | .node fs _ => fs

/-- Named subdirectories of the root node of a tree. -/
def FSTree.subdirs : FSTree → List (String × FSTree)
  | .node _ sd => sd

/-- One directory as the engine sees it: its path string and the regular
files directly inside it. -/
structure DirEntry where
  path : String
  files : List FileEntry
deriving DecidableEq

mutual

/-- Translation of pathlib glob("**") from get_dir_list: enumerate the
directory itself first, then recursively all nested subdirectories, in
scan order (preorder, depth first). Path strings are joined with the
Windows separator, matching the path join used by the script. -/
def dirList (p : String) : FSTree → List DirEntry
  | .node files subdirs => ⟨p, files⟩ :: dirListChildren p subdirs

/-- Recursive enumeration of the children of a directory, in scan order. -/
def dirListChildren (p : String) : List (String × FSTree) → List DirEntry
  | [] => []
  | (n, c) :: rest => dirList (p ++ "\\" ++ n) c ++ dirListChildren p rest

end

/-- Translation of get_dir_list (src/paste.py lines 59 to 63). The root
argument is none when the root path does not exist (or is not a
directory); pathlib glob then yields nothing, so the result is the empty
list. Otherwise the result is the root itself followed by every nested
subdirectory at every depth. -/
def get_dir_list (root_path : String) (root : Option FSTree) : List DirEntry :=
  match root with
  | none => []
  | some t => dirList root_path t

/-- SubdirPath p t q holds when q is the path string of the directory
node reached from a tree t rooted at path p by following zero or more
named subdirectory edges. -/
inductive SubdirPath : String → FSTree → String → Prop where
  | refl (p : String) (t : FSTree) : SubdirPath p t p
  | step (p : String) (files : List FileEntry) (subs : List (String × FSTree))
      (n : String) (c : FSTree) (q : String)
      (hmem : (n, c) ∈ subs) (h : SubdirPath (p ++ "\\" ++ n) c q) :
      SubdirPath p (FSTree.node files subs) q

/-- The configured cell sizes in pixels, from App.set_info. The script
hardcodes 88 and 18; the spec treats them as configuration, and the
formatting step compares them against those defaults. -/
structure Config where
  cell_width_pix : Nat
  cell_height_pix : Nat
deriving DecidableEq

/-- The configuration set by App.set_info. -/
def defaultConfig : Config := ⟨88, 18⟩

/-- img_insert_width = cell_width_pix * 3 (App.set_info). -/
def Config.img_insert_width (cfg : Config) : Nat := cfg.cell_width_pix * 3

/-- cols_per_img = 4 (App.set_info). -/
def cols_per_img : Nat := 4

/-- max_rows = 1000 (App.set_info). -/
def max_rows : Nat := 1000

/-- Loading the image for a filename slot of a directory: the composed
path refers to a regular file directly inside the directory; imread
returns its decoded data, or None when the file is missing or not a
decodable image. -/
def loadImage (d : DirEntry) (img_name : String) : Option ImgData :=
  (d.files.find? fun f => f.name == img_name).bind FileEntry.image

/-- The pixel dimensions of a resized image, in (width, height) order as
passed to cv2.resize. -/
structure ResizedImg where
  width : Nat
  height : Nat
deriving DecidableEq

/-- Translation of App.img_resize (lines 94 to 100): the target size is
(img_insert_width, image_height * img_insert_width // image_width); the
double slash is Python floor division, which on naturals is Nat division. -/
def img_resize (cfg : Config) (img : ImgData) : ResizedImg :=
  { width := cfg.img_insert_width
    height := img.height * cfg.img_insert_width / img.width }

/-- Translation of rows_per_img = math.ceil(image_height / cell_height_pix)
(line 102), as the natural ceiling division (h + c - 1) / c; the lemma
rows_per_img_of_eq_ceil below shows this equals the rational ceiling
whenever cell_height_pix is positive. -/
def rows_per_img_of (cfg : Config) (h : Nat) : Nat :=
  (h + cfg.cell_height_pix - 1) / cfg.cell_height_pix

/-- Translation of App.get_next_col (line 120). -/
def get_next_col (crr_col : Nat) : Nat := crr_col + cols_per_img

/-- Translation of App.get_next_row (line 124); rows_per_img is the
current value of the per-image scratch field. -/
def get_next_row (rows_per_img crr_row : Nat) : Nat := crr_row + rows_per_img + 3

/-- The three border styles the script uses. -/
inductive BorderKind where
  | top
  | right_top
  | right
deriving DecidableEq

/-- One write against the worksheet: cell text, cell border, column
width, row height, or an embedded image (anchored at a cell, with its
pixel dimensions). -/
inductive Event where
  | setText (row col : Nat) (text : String)
  | setBorder (row col : Nat) (kind : BorderKind)
  | setColWidth (col : Nat) (w : ℚ)
  | setRowHeight (row : Nat) (h : ℚ)
  | addImage (row col : Nat) (width height : Nat)
deriving DecidableEq

/-- Translation of App.format_cells (lines 84 to 91): when the configured
cell width is not the default 88, the columns produced by
range(1, max_cols) get width cell_width_pix / 8; when the configured cell
height is not the default 18, the rows produced by range(1, max_rows) get
height cell_height_pix / 1.3. Python range(1, n) enumerates 1 to n - 1. -/
def format_cells (cfg : Config) (maxCols maxRows : Nat) : List Event :=
  (if cfg.cell_width_pix ≠ 88 then
    (List.range' 1 (maxCols - 1)).map
      (fun c => Event.setColWidth c ((cfg.cell_width_pix : ℚ) / 8))
  else []) ++
  (if cfg.cell_height_pix ≠ 18 then
    (List.range' 1 (maxRows - 1)).map
      (fun r => Event.setRowHeight r ((cfg.cell_height_pix : ℚ) / (13 / 10)))
  else [])

/-- The mutable engine state during App.execute: the layout cursor
(pic_insert_row, pic_insert_col), the per-image scratch field
rows_per_img (none while the attribute has never been assigned, which is
the state in which reading it raises AttributeError), and max_dir_len. -/
structure EngineState where
  row : Nat
  col : Nat
  rows_per_img : Option Nat
  max_dir_len : Nat
deriving DecidableEq

/-- One iteration of the filename loop (lines 157 to 174): write the
filename label at (pic_insert_row, pic_insert_col + 1); if the image
loads, resize it, embed it at (pic_insert_row + 1, pic_insert_col + 1)
and assign rows_per_img; finally advance the column cursor. -/
def process_slot (cfg : Config) (d : DirEntry) (st : EngineState) (img_name : String) :
    List Event × EngineState :=
  let labelEv := Event.setText st.row (st.col + 1) img_name
  match loadImage d img_name with
  | some img =>
      let resized := img_resize cfg img
      ([labelEv, Event.addImage (st.row + 1) (st.col + 1) resized.width resized.height],
       { st with col := get_next_col st.col,
                 rows_per_img := some (rows_per_img_of cfg resized.height) })
  | none => ([labelEv], { st with col := get_next_col st.col })

/-- The whole filename loop, in list order. -/
def slots_fold (cfg : Config) (d : DirEntry) :
    List String → EngineState → List Event × EngineState
  | [], st => ([], st)
  | n :: rest, st =>
      let r1 := process_slot cfg d st n
      let r2 := slots_fold cfg d rest r1.2
      (r1.1 ++ r2.1, r2.2)

/-- One iteration of the directory loop (lines 143 to 184). A directory
with no regular files directly inside is skipped with nothing written and
the state unchanged. Otherwise: thick top border across columns 1 to
max_cols, the directory path into column 1, max_dir_len update, the
filename loop, then the border loop down column 1 over rows_per_img + 3
rows and the cursor advance. Reading rows_per_img when it was never
assigned raises AttributeError, modelled by returning none as the final
state while keeping the events already written. -/
def process_dir (cfg : Config) (maxCols : Nat) (image_names : List String)
    (st : EngineState) (d : DirEntry) : List Event × Option EngineState :=
  if d.files.isEmpty then ([], some st)
  else
    let topEvs := (List.range' 1 maxCols).map
      (fun c => Event.setBorder st.row c BorderKind.top)
    let labelEv := Event.setText st.row 1 d.path
    let st1 := { st with max_dir_len := max st.max_dir_len d.path.length }
    let r := slots_fold cfg d image_names st1
    match r.2.rows_per_img with
    | none => (topEvs ++ labelEv :: r.1, none)
    | some rpi =>
        let borderEvs := (List.range (rpi + 3)).map
          (fun dr => Event.setBorder (r.2.row + dr) 1
            (if dr = 0 then BorderKind.right_top else BorderKind.right))
        (topEvs ++ labelEv :: r.1 ++ borderEvs,
         some { r.2 with col := 2, row := get_next_row rpi r.2.row })

/-- The directory loop over the enumerated directories; an AttributeError
stops the run, keeping the events written so far. -/
def run_dirs (cfg : Config) (maxCols : Nat) (image_names : List String) :
    EngineState → List DirEntry → List Event × Option EngineState
  | st, [] => ([], some st)
  | st, d :: rest =>
      match process_dir cfg maxCols image_names st d with
      | (evs, none) => (evs, none)
      | (evs, some st1) =>
          let r := run_dirs cfg maxCols image_names st1 rest
          (evs ++ r.1, r.2)

/-- The engine state at the start of the directory loop (lines 137 to
138): cursor at (2, 2), rows_per_img never assigned, max_dir_len 0. -/
def initState : EngineState := ⟨2, 2, none, 0⟩

/-- Translation of App.execute (lines 127 to 186): set max_cols to
1 + cols_per_img * N, apply format_cells, enumerate the directories,
run the directory loop from cursor (2, 2), and on normal completion set
the width of column 1 to max_dir_len (the raw string length, with no
pixel conversion). The second component is the final engine state, or
none when the run died with AttributeError. -/
def execute (cfg : Config) (root_dir : String) (root : Option FSTree)
    (image_names : List String) : List Event × Option EngineState :=
  let maxCols := 1 + cols_per_img * image_names.length
  let fmtEvs := format_cells cfg maxCols max_rows
  let dirs := get_dir_list root_dir root
  match run_dirs cfg maxCols image_names initState dirs with
  | (evs, none) => (fmtEvs ++ evs, none)
  | (evs, some st) =>
      (fmtEvs ++ evs ++ [Event.setColWidth 1 (st.max_dir_len : ℚ)], some st)

/-- The worksheet contents: text, border, column width and row height per
cell coordinate, and the list of embedded images with their anchors and
pixel dimensions. -/
structure Surface where
  textAt : Nat → Nat → Option String
  borderAt : Nat → Nat → Option BorderKind
  colWidthAt : Nat → Option ℚ
  rowHeightAt : Nat → Option ℚ
  images : List (Nat × Nat × Nat × Nat)

/-- A fresh worksheet: nothing written. -/
def emptySurface : Surface :=
  ⟨fun _ _ => none, fun _ _ => none, fun _ => none, fun _ => none, []⟩

/-- Apply one write event to a worksheet; later writes to the same cell
overwrite earlier ones. -/
def applyEvent (s : Surface) : Event → Surface
  | Event.setText r c txt =>
      { s with textAt := fun r2 c2 =>
          if r2 = r then (if c2 = c then some txt else s.textAt r2 c2) else s.textAt r2 c2 }
  | Event.setBorder r c k =>
      { s with borderAt := fun r2 c2 =>
          if r2 = r then (if c2 = c then some k else s.borderAt r2 c2) else s.borderAt r2 c2 }
  | Event.setColWidth c w =>
      { s with colWidthAt := fun c2 => if c2 = c then some w else s.colWidthAt c2 }
  | Event.setRowHeight r h =>
      { s with rowHeightAt := fun r2 => if r2 = r then some h else s.rowHeightAt r2 }
  | Event.addImage r c w h => { s with images := s.images ++ [(r, c, w, h)] }

/-- The worksheet produced by a trace of write events on a fresh sheet. -/
def applyTrace (evs : List Event) : Surface := evs.foldl applyEvent emptySurface

/-- The successive values assigned to the width of one column, in trace
order. -/
def colWidthValues (evs : List Event) (c : Nat) : List ℚ :=
  evs.filterMap fun e =>
    match e with
    | Event.setColWidth c2 w => if c2 = c then some w else none
    | _ => none

/-- Recognizes a thick right or combined right and top border written in
column 1, the borders drawn by the per-directory border loop. -/
def is_left_border : Event → Bool
  | Event.setBorder _ c k =>
      c == 1 && (k == BorderKind.right || k == BorderKind.right_top)
  | _ => false

/-- How one filename slot transforms the rows_per_img scratch field: a
successful load overwrites it with the row span of the freshly resized
image, a failed load leaves it alone. -/
def row_span_step (cfg : Config) (d : DirEntry) (acc : Option Nat) (n : String) :
    Option Nat :=
  match loadImage d n with
  | some img => some (rows_per_img_of cfg (img_resize cfg img).height)
  | none => acc

/-- The row span of the last successfully loaded image of a directory
across the filename list, if any load succeeds. -/
def last_row_span (cfg : Config) (d : DirEntry) (image_names : List String) : Option Nat :=
  image_names.foldl (row_span_step cfg d) none

/-- The running maximum of the path lengths of the directories that have
at least one regular file, as accumulated in max_dir_len. -/
def maxDirLen (dirs : List DirEntry) : Nat :=
  dirs.foldl (fun m d => if d.files.isEmpty then m else max m d.path.length) 0

/-- Recognizes the sizing events (column width, row height); the
directory loop never emits these. -/
def is_sizing : Event → Bool
  | Event.setColWidth _ _ => true
  | Event.setRowHeight _ _ => true
  | _ => false

/-! ### Arithmetic bridge lemmas -/

/-- Natural division is the floor of the rational quotient. -/
theorem natDiv_eq_floor (a b : ℕ) : (a / b : ℕ) = ⌊(a : ℚ) / b⌋₊ := by
  rw [Nat.floor_div_nat, Nat.floor_natCast]

/-- The natural ceiling division used for rows_per_img agrees with the
rational ceiling math.ceil computes, whenever the cell height is
positive. -/
theorem rows_per_img_of_eq_ceil (cfg : Config) (h : Nat)
    (hc : 0 < cfg.cell_height_pix) :
    rows_per_img_of cfg h = ⌈(h : ℚ) / cfg.cell_height_pix⌉₊ := by
  set b := cfg.cell_height_pix with hb
  have hbq : (0 : ℚ) < (b : ℚ) := by exact_mod_cast hc
  have hceil : h ≤ ⌈(h : ℚ) / b⌉₊ * b := by
    have hle := Nat.le_ceil ((h : ℚ) / b)
    rw [div_le_iff₀ hbq] at hle
    exact_mod_cast hle
  rw [rows_per_img_of]
  apply le_antisymm
  · have h2 : h + b - 1 < (⌈(h : ℚ) / b⌉₊ + 1) * b := by
      have hmul : (⌈(h : ℚ) / b⌉₊ + 1) * b = ⌈(h : ℚ) / b⌉₊ * b + b := by ring
      omega
    exact Nat.lt_succ_iff.mp ((Nat.div_lt_iff_lt_mul hc).mpr h2)
  · rw [Nat.ceil_le, div_le_iff₀ hbq]
    have hd := Nat.div_add_mod (h + b - 1) b
    have hm := Nat.mod_lt (h + b - 1) hc
    have hcomm : (h + b - 1) / b * b = b * ((h + b - 1) / b) := Nat.mul_comm _ _
    have : h ≤ (h + b - 1) / b * b := by omega
    exact_mod_cast this

/-! ### Filename loop lemmas -/

/-- One slot changes the engine state by advancing the column by
cols_per_img and stepping the rows_per_img scratch field. -/
theorem process_slot_state (cfg : Config) (d : DirEntry) (st : EngineState) (n : String) :
    (process_slot cfg d st n).2 =
      { row := st.row, col := st.col + cols_per_img,
        rows_per_img := row_span_step cfg d st.rows_per_img n,
        max_dir_len := st.max_dir_len } := by
  unfold process_slot row_span_step
  cases h : loadImage d n <;> simp [h, get_next_col]

/-- Folding the row-span step from any starting accumulator is the fold
from none, with the starting accumulator as the fallback. -/
theorem foldl_row_span_or (cfg : Config) (d : DirEntry) :
    ∀ (ns : List String) (a : Option Nat),
      ns.foldl (row_span_step cfg d) a = (ns.foldl (row_span_step cfg d) none).or a := by
  intro ns
  induction ns with
  | nil => intro a; rfl
  | cons n rest ih =>
    intro a
    rcases h : loadImage d n with _ | img
    · have hstep : ∀ x, row_span_step cfg d x n = x := by
        intro x; unfold row_span_step; rw [h]
      simp only [List.foldl_cons, hstep]
      exact ih a
    · have hstep : ∀ x, row_span_step cfg d x n =
          some (rows_per_img_of cfg (img_resize cfg img).height) := by
        intro x; unfold row_span_step; rw [h]
      simp only [List.foldl_cons, hstep]
      rw [ih (some (rows_per_img_of cfg (img_resize cfg img).height))]
      cases rest.foldl (row_span_step cfg d) none <;> rfl

/-- The fallback fallback step: stepping from none and falling back to a
is the same as stepping from a. -/
theorem row_span_step_or (cfg : Config) (d : DirEntry) (a : Option Nat) (n : String) :
    (row_span_step cfg d none n).or a = row_span_step cfg d a n := by
  unfold row_span_step
  cases loadImage d n <;> rfl

/-- The filename loop keeps the row and max_dir_len, advances the column
by cols_per_img per filename, and leaves rows_per_img holding the row
span of the last successfully loaded image, falling back to the previous
value when no load succeeds. -/
theorem slots_fold_state (cfg : Config) (d : DirEntry) :
    ∀ (ns : List String) (st : EngineState),
      (slots_fold cfg d ns st).2 =
        { row := st.row, col := st.col + cols_per_img * ns.length,
          rows_per_img := (last_row_span cfg d ns).or st.rows_per_img,
          max_dir_len := st.max_dir_len } := by
  intro ns
  induction ns with
  | nil =>
    intro st
    simp [slots_fold, last_row_span]
  | cons n rest ih =>
    intro st
    show (slots_fold cfg d rest (process_slot cfg d st n).2).2 = _
    rw [ih, process_slot_state]
    have hlast : last_row_span cfg d (n :: rest) =
        (last_row_span cfg d rest).or (row_span_step cfg d none n) := by
      show (n :: rest).foldl (row_span_step cfg d) none = _
      rw [List.foldl_cons, foldl_row_span_or cfg d rest]
      rfl
    simp only [EngineState.mk.injEq, hlast, List.length_cons, true_and, and_true]
    constructor
    · ring
    · rw [Option.or_assoc, row_span_step_or]

/-- If no filename of the list loads, the last row span is undefined. -/
theorem last_row_span_none (cfg : Config) (d : DirEntry) :
    ∀ (ns : List String), (∀ n ∈ ns, loadImage d n = none) →
      last_row_span cfg d ns = none := by
  intro ns
  induction ns with
  | nil => intro _; rfl
  | cons n rest ih =>
    intro hf
    have h0 : loadImage d n = none := hf n (List.mem_cons_self n rest)
    have hstep : row_span_step cfg d none n = none := by
      unfold row_span_step; rw [h0]
    show (n :: rest).foldl (row_span_step cfg d) none = none
    rw [List.foldl_cons, hstep]
    exact ih fun m hm => hf m (List.mem_cons_of_mem n hm)

/-- Every event the filename loop writes is a text label or an embedded
image. -/
theorem slots_fold_events (cfg : Config) (d : DirEntry) :
    ∀ (ns : List String) (st : EngineState), ∀ e ∈ (slots_fold cfg d ns st).1,
      is_left_border e = false ∧ is_sizing e = false := by
  intro ns
  induction ns with
  | nil => intro st e he; simp [slots_fold] at he
  | cons n rest ih =>
    intro st e he
    have hsplit : e ∈ (process_slot cfg d st n).1 ∨
        e ∈ (slots_fold cfg d rest (process_slot cfg d st n).2).1 := by
      have : (slots_fold cfg d (n :: rest) st).1 =
          (process_slot cfg d st n).1 ++ (slots_fold cfg d rest (process_slot cfg d st n).2).1 := rfl
      rw [this] at he
      exact List.mem_append.mp he
    rcases hsplit with h1 | h2
    · unfold process_slot at h1
      rcases hl : loadImage d n with _ | img <;> rw [hl] at h1 <;>
        simp at h1 <;> rcases h1 with rfl | rfl <;> simp [is_left_border, is_sizing]
    · exact ih (process_slot cfg d st n).2 e h2

/-! ### Directory loop lemmas -/

/-- A directory with no regular files is skipped: nothing written, state
unchanged. -/
theorem process_dir_empty (cfg : Config) (maxCols : Nat) (ns : List String)
    (st : EngineState) (d : DirEntry) (h : d.files = []) :
    process_dir cfg maxCols ns st d = ([], some st) := by
  unfold process_dir
  rw [if_pos (by simp [h])]

/-- Master equation for a directory step that dies with AttributeError:
the directory has files, and after the filename loop the rows_per_img
field is still unassigned. The top border, the path label and the slot
events stay written; there is no final state. -/
theorem process_dir_eq_abort (cfg : Config) (maxCols : Nat) (ns : List String)
    (st : EngineState) (d : DirEntry) (hne : ¬d.files.isEmpty)
    (hnone : (last_row_span cfg d ns).or st.rows_per_img = none) :
    process_dir cfg maxCols ns st d =
      ((List.range' 1 maxCols).map (fun c => Event.setBorder st.row c BorderKind.top)
        ++ Event.setText st.row 1 d.path
          :: (slots_fold cfg d ns
                { st with max_dir_len := max st.max_dir_len d.path.length }).1,
       none) := by
  have hs := slots_fold_state cfg d ns
    { st with max_dir_len := max st.max_dir_len d.path.length }
  simp only [process_dir, if_neg hne, hs, hnone]

/-- Master equation for a directory step that completes: the directory
has files and the rows_per_img field holds r after the filename loop.
The top border, the path label, the slot events and the border loop down
column 1 over r + 3 rows are written, the cursor resets to column 2 and
the row advances by r + 3. -/
theorem process_dir_eq_done (cfg : Config) (maxCols : Nat) (ns : List String)
    (st : EngineState) (d : DirEntry) (hne : ¬d.files.isEmpty) (r : Nat)
    (hsome : (last_row_span cfg d ns).or st.rows_per_img = some r) :
    process_dir cfg maxCols ns st d =
      ((List.range' 1 maxCols).map (fun c => Event.setBorder st.row c BorderKind.top)
        ++ Event.setText st.row 1 d.path
          :: ((slots_fold cfg d ns
                { st with max_dir_len := max st.max_dir_len d.path.length }).1
            ++ (List.range (r + 3)).map (fun dr => Event.setBorder (st.row + dr) 1
                  (if dr = 0 then BorderKind.right_top else BorderKind.right))),
       some { row := st.row + r + 3, col := 2, rows_per_img := some r,
              max_dir_len := max st.max_dir_len d.path.length }) := by
  have hs := slots_fold_state cfg d ns
    { st with max_dir_len := max st.max_dir_len d.path.length }
  simp only [process_dir, if_neg hne, hs, hsome, get_next_row]
  simp [List.append_assoc, List.cons_append]

/-- Every event the directory step writes is a border, a text cell or an
embedded image, never a sizing event. -/
theorem process_dir_no_sizing (cfg : Config) (maxCols : Nat) (ns : List String)
    (st : EngineState) (d : DirEntry) :
    ∀ e ∈ (process_dir cfg maxCols ns st d).1, is_sizing e = false := by
  intro e he
  by_cases hne : d.files.isEmpty
  · rw [process_dir_empty cfg maxCols ns st d (List.isEmpty_iff.mp hne)] at he
    simp at he
  · rcases hsp : (last_row_span cfg d ns).or st.rows_per_img with _ | rpi
    · rw [process_dir_eq_abort cfg maxCols ns st d hne hsp] at he
      simp only [List.mem_append, List.mem_cons, List.mem_map, List.mem_range'] at he
      rcases he with ⟨_, _, rfl⟩ | rfl | hm
      · rfl
      · rfl
      · exact (slots_fold_events cfg d ns _ e hm).2
    · rw [process_dir_eq_done cfg maxCols ns st d hne rpi hsp] at he
      simp only [List.mem_append, List.mem_cons, List.mem_map, List.mem_range] at he
      rcases he with ⟨_, _, rfl⟩ | rfl | hm | ⟨_, _, rfl⟩
      · rfl
      · rfl
      · exact (slots_fold_events cfg d ns _ e hm).2
      · rfl

/-- The max_dir_len field after a successful directory step. -/
theorem process_dir_max_len (cfg : Config) (maxCols : Nat) (ns : List String)
    (st : EngineState) (d : DirEntry) (st1 : EngineState)
    (h : (process_dir cfg maxCols ns st d).2 = some st1) :
    st1.max_dir_len = if d.files.isEmpty then st.max_dir_len
      else max st.max_dir_len d.path.length := by
  by_cases hne : d.files.isEmpty
  · rw [process_dir_empty cfg maxCols ns st d (List.isEmpty_iff.mp hne)] at h
    simp only [Option.some.injEq] at h
    rw [if_pos hne, ← h]
  · rcases hsp : (last_row_span cfg d ns).or st.rows_per_img with _ | rpi
    · rw [process_dir_eq_abort cfg maxCols ns st d hne hsp] at h
      simp at h
    · rw [process_dir_eq_done cfg maxCols ns st d hne rpi hsp] at h
      simp only [Option.some.injEq] at h
      rw [if_neg hne, ← h]

/-! ### Run loop lemmas -/

/-- Step equation for the directory run loop. -/
theorem run_dirs_cons (cfg : Config) (maxCols : Nat) (ns : List String)
    (st : EngineState) (d : DirEntry) (rest : List DirEntry) :
    run_dirs cfg maxCols ns st (d :: rest) =
      match process_dir cfg maxCols ns st d with
      | (evs, none) => (evs, none)
      | (evs, some st1) =>
          (evs ++ (run_dirs cfg maxCols ns st1 rest).1,
           (run_dirs cfg maxCols ns st1 rest).2) := rfl

/-- Directories without files at the front of the list are skipped
without any effect. -/
theorem run_dirs_skip (cfg : Config) (maxCols : Nat) (ns : List String) :
    ∀ (pre rest : List DirEntry) (st : EngineState),
      (∀ d ∈ pre, d.files = []) →
      run_dirs cfg maxCols ns st (pre ++ rest) = run_dirs cfg maxCols ns st rest := by
  intro pre
  induction pre with
  | nil => intro rest st _; rfl
  | cons d pre2 ih =>
    intro rest st hpre
    have hd : d.files = [] := hpre d (List.mem_cons_self d pre2)
    rw [List.cons_append, run_dirs_cons, process_dir_empty cfg maxCols ns st d hd]
    show ([] ++ (run_dirs cfg maxCols ns st (pre2 ++ rest)).1,
      (run_dirs cfg maxCols ns st (pre2 ++ rest)).2) = _
    rw [ih rest st fun d2 h2 => hpre d2 (List.mem_cons_of_mem d h2)]
    rcases run_dirs cfg maxCols ns st rest with ⟨evs, ost⟩
    simp

/-- The run loop never writes sizing events. -/
theorem run_dirs_no_sizing (cfg : Config) (maxCols : Nat) (ns : List String) :
    ∀ (dirs : List DirEntry) (st : EngineState),
      ∀ e ∈ (run_dirs cfg maxCols ns st dirs).1, is_sizing e = false := by
  intro dirs
  induction dirs with
  | nil => intro st e he; simp [run_dirs] at he
  | cons d rest ih =>
    intro st e he
    rw [run_dirs_cons] at he
    rcases hpd : process_dir cfg maxCols ns st d with ⟨evs, ost⟩
    rw [hpd] at he
    have hevs : ∀ e2 ∈ evs, is_sizing e2 = false := by
      intro e2 he2
      have h3 := process_dir_no_sizing cfg maxCols ns st d e2
      rw [hpd] at h3
      exact h3 he2
    rcases ost with _ | st1
    · exact hevs e he
    · simp only [List.mem_append] at he
      rcases he with h1 | h2
      · exact hevs e h1
      · exact ih st1 e h2

/-- On normal completion, max_dir_len accumulates the maximum path
length of the directories with files. -/
theorem run_dirs_max_len (cfg : Config) (maxCols : Nat) (ns : List String) :
    ∀ (dirs : List DirEntry) (st stF : EngineState),
      (run_dirs cfg maxCols ns st dirs).2 = some stF →
      stF.max_dir_len = dirs.foldl
        (fun m d => if d.files.isEmpty then m else max m d.path.length) st.max_dir_len := by
  intro dirs
  induction dirs with
  | nil =>
    intro st stF h
    simp only [run_dirs, Option.some.injEq] at h
    rw [← h]
    rfl
  | cons d rest ih =>
    intro st stF h
    rw [run_dirs_cons] at h
    rcases hpd : process_dir cfg maxCols ns st d with ⟨evs, ost⟩
    rw [hpd] at h
    rcases ost with _ | st1
    · simp at h
    · simp only at h
      have h1 := process_dir_max_len cfg maxCols ns st d st1 (by rw [hpd])
      rw [List.foldl_cons, ← h1]
      exact ih st1 stF h

/-! ### Whole-run lemmas -/

/-- Equation for a run that completes normally. -/
theorem execute_eq_done (cfg : Config) (root : String) (fs : Option FSTree)
    (names : List String) (evs : List Event) (stF : EngineState)
    (h : run_dirs cfg (1 + cols_per_img * names.length) names initState
      (get_dir_list root fs) = (evs, some stF)) :
    execute cfg root fs names =
      (format_cells cfg (1 + cols_per_img * names.length) max_rows ++ evs
        ++ [Event.setColWidth 1 (stF.max_dir_len : ℚ)], some stF) := by
  simp only [execute, h]

/-- Equation for a run that dies with AttributeError. -/
theorem execute_eq_abort (cfg : Config) (root : String) (fs : Option FSTree)
    (names : List String) (evs : List Event)
    (h : run_dirs cfg (1 + cols_per_img * names.length) names initState
      (get_dir_list root fs) = (evs, none)) :
    execute cfg root fs names =
      (format_cells cfg (1 + cols_per_img * names.length) max_rows ++ evs, none) := by
  simp only [execute, h]

/-- Events of the run loop are part of the whole-run trace. -/
theorem execute_mem_run (cfg : Config) (root : String) (fs : Option FSTree)
    (names : List String) (e : Event)
    (he : e ∈ (run_dirs cfg (1 + cols_per_img * names.length) names initState
      (get_dir_list root fs)).1) :
    e ∈ (execute cfg root fs names).1 := by
  rcases hr : run_dirs cfg (1 + cols_per_img * names.length) names initState
      (get_dir_list root fs) with ⟨evs, ost⟩
  rw [hr] at he
  rcases ost with _ | st
  · rw [execute_eq_abort cfg root fs names evs hr]
    exact List.mem_append_right _ he
  · rw [execute_eq_done cfg root fs names evs st hr]
    exact List.mem_append_left _ (List.mem_append_right _ he)

/-! ### Trace and surface lemmas -/

/-- Applying a concatenated trace is applying the second part on top of
the first. -/
theorem applyTrace_append (l1 l2 : List Event) :
    applyTrace (l1 ++ l2) = l2.foldl applyEvent (applyTrace l1) := by
  simp [applyTrace, List.foldl_append]

/-- The width of a column after a trace ending in an assignment to it. -/
theorem colWidthAt_last (l : List Event) (c : Nat) (w : ℚ) :
    (applyTrace (l ++ [Event.setColWidth c w])).colWidthAt c = some w := by
  rw [applyTrace_append]
  simp [applyEvent]

/-- colWidthValues distributes over concatenation. -/
theorem colWidthValues_append (l1 l2 : List Event) (c : Nat) :
    colWidthValues (l1 ++ l2) c = colWidthValues l1 c ++ colWidthValues l2 c := by
  simp [colWidthValues]

/-- A trace without sizing events assigns no column widths. -/
theorem colWidthValues_nil_of_no_sizing (c : Nat) :
    ∀ l : List Event, (∀ e ∈ l, is_sizing e = false) → colWidthValues l c = [] := by
  intro l
  induction l with
  | nil => intro _; rfl
  | cons e t ih =>
    intro h
    have he := h e (List.mem_cons_self e t)
    have ht := ih fun x hx => h x (List.mem_cons_of_mem e hx)
    rcases e with ⟨r2, c2, s⟩ | ⟨r2, c2, k⟩ | ⟨c2, w⟩ | ⟨r2, hh⟩ | ⟨r2, c2, w2, h2⟩
    · simpa [colWidthValues, List.filterMap_cons] using ht
    · simpa [colWidthValues, List.filterMap_cons] using ht
    · simp [is_sizing] at he
    · simp [is_sizing] at he
    · simpa [colWidthValues, List.filterMap_cons] using ht

/-- An assignment list consisting of one matching event. -/
theorem colWidthValues_single (c : Nat) (w : ℚ) :
    colWidthValues [Event.setColWidth c w] c = [w] := by
  simp [colWidthValues]

/-- Row-height events assign no column widths. -/
theorem colWidthValues_rowHeights (c : Nat) (v : ℚ) :
    ∀ l : List Nat, colWidthValues (l.map fun r => Event.setRowHeight r v) c = [] := by
  intro l
  induction l with
  | nil => rfl
  | cons a t ih =>
    simp only [colWidthValues, List.map_cons, List.filterMap_cons]
    exact ih

/-- With the default cell width, the formatting step assigns no column
widths at all. -/
theorem format_cells_default_width (cfg : Config) (mc mr : Nat)
    (h : cfg.cell_width_pix = 88) (c : Nat) :
    colWidthValues (format_cells cfg mc mr) c = [] := by
  unfold format_cells
  rw [if_neg (by simp [h])]
  rw [List.nil_append]
  by_cases h2 : cfg.cell_height_pix ≠ 18
  · rw [if_pos h2]
    exact colWidthValues_rowHeights c _ _
  · rw [if_neg h2]
    rfl

/-- The formatting step writes no borders, in particular none of the
column-1 right borders. -/
theorem format_cells_border_free (cfg : Config) (mc mr : Nat) :
    ∀ e ∈ format_cells cfg mc mr, is_left_border e = false := by
  intro e he
  unfold format_cells at he
  rcases List.mem_append.mp he with h1 | h2
  · by_cases hw : cfg.cell_width_pix ≠ 88
    · rw [if_pos hw] at h1
      rcases List.mem_map.mp h1 with ⟨x, _, rfl⟩
      rfl
    · rw [if_neg hw] at h1
      simp at h1
  · by_cases hh : cfg.cell_height_pix ≠ 18
    · rw [if_pos hh] at h2
      rcases List.mem_map.mp h2 with ⟨x, _, rfl⟩
      rfl
    · rw [if_neg hh] at h2
      simp at h2

/-! ### Enumeration lemmas -/

/-- The enumeration of an existing root starts with the root itself. -/
theorem get_dir_list_some (root : String) (t : FSTree) :
    get_dir_list root (some t) = ⟨root, t.files⟩ :: dirListChildren root t.subdirs := by
  cases t
  rfl

/-- Entries enumerated under a child subtree are enumerated among the
children. -/
theorem mem_dirListChildren (x : DirEntry) (p n : String) (c : FSTree) :
    ∀ subs : List (String × FSTree), (n, c) ∈ subs →
      x ∈ dirList (p ++ "\\" ++ n) c → x ∈ dirListChildren p subs := by
  intro subs
  induction subs with
  | nil => intro h; simp at h
  | cons hd tl ih =>
    intro hmem hx
    rcases List.mem_cons.mp hmem with heq | htl
    · cases heq
      exact List.mem_append_left _ hx
    · rcases hd with ⟨m, t2⟩
      show x ∈ dirList (p ++ "\\" ++ m) t2 ++ dirListChildren p tl
      exact List.mem_append_right _ (ih htl hx)

/-- Every directory reachable through subdirectory edges is enumerated:
its path occurs among the enumerated paths. -/
theorem subdirPath_mem_dirList (p : String) (t : FSTree) (q : String) :
    SubdirPath p t q → q ∈ (dirList p t).map DirEntry.path := by
  intro h
  induction h with
  | refl p t =>
    rcases t with ⟨fs, sd⟩
    show p ∈ (DirEntry.mk p fs :: dirListChildren p sd).map DirEntry.path
    rw [List.map_cons]
    exact List.mem_cons_self _ _
  | step p files subs n c q hmem hsub ih =>
    have hq : q ∈ (dirListChildren p subs).map DirEntry.path := by
      rcases List.mem_map.mp ih with ⟨x, hx, rfl⟩
      exact List.mem_map_of_mem _ (mem_dirListChildren x p n c subs hmem hx)
    show q ∈ (DirEntry.mk p files :: dirListChildren p subs).map DirEntry.path
    rw [List.map_cons]
    exact List.mem_cons_of_mem _ hq

/-- The path label of a directory with files is written at column 1 of
the cursor row, whether or not the step later aborts. -/
theorem process_dir_label_mem (cfg : Config) (mc : Nat) (ns : List String)
    (st : EngineState) (d : DirEntry) (hne : d.files ≠ []) :
    Event.setText st.row 1 d.path ∈ (process_dir cfg mc ns st d).1 := by
  have hne2 : ¬d.files.isEmpty := by simp [hne]
  rcases hsp : (last_row_span cfg d ns).or st.rows_per_img with _ | r
  · rw [process_dir_eq_abort cfg mc ns st d hne2 hsp]
    exact List.mem_append_right _ (List.mem_cons_self _ _)
  · rw [process_dir_eq_done cfg mc ns st d hne2 r hsp]
    exact List.mem_append_right _ (List.mem_cons_self _ _)

/-- Events of the first directory step are part of the run loop trace. -/
theorem run_dirs_head_mem (cfg : Config) (mc : Nat) (ns : List String)
    (st : EngineState) (d : DirEntry) (rest : List DirEntry) (e : Event)
    (he : e ∈ (process_dir cfg mc ns st d).1) :
    e ∈ (run_dirs cfg mc ns st (d :: rest)).1 := by
  rw [run_dirs_cons]
  rcases hpd : process_dir cfg mc ns st d with ⟨evs, ost⟩
  rw [hpd] at he
  rcases ost with _ | st1
  · exact he
  · exact List.mem_append_left _ he

/-! ### Claim theorems -/

/-- C1: for every directory processed that yields at least one
successfully loaded image, after its filename loop the layout cursor row
advances by exactly the row span of the last successfully resized image
of that directory plus 3, and the cursor column resets to 2. -/
theorem c1_row_advance (cfg : Config) (maxCols : Nat) (names : List String)
    (st : EngineState) (d : DirEntry) (hne : d.files ≠ []) (r : Nat)
    (hlast : last_row_span cfg d names = some r) :
    (process_dir cfg maxCols names st d).2 =
      some { row := st.row + r + 3, col := 2, rows_per_img := some r,
             max_dir_len := max st.max_dir_len d.path.length } := by
  have hne2 : ¬d.files.isEmpty := by simp [hne]
  have hor : (last_row_span cfg d names).or st.rows_per_img = some r := by
    rw [hlast]
    rfl
  rw [process_dir_eq_done cfg maxCols names st d hne2 r hor]

/-- Witness for c1_row_advance: one directory holding one loadable
10 by 10 image; its resized height is 264, the row span is 15, the row
advances from 2 to 20 and the column resets to 2. -/
theorem c1_row_advance_witness :
    (DirEntry.mk "r" [⟨"test.bmp", some ⟨10, 10⟩⟩]).files ≠ [] ∧
    last_row_span defaultConfig (DirEntry.mk "r" [⟨"test.bmp", some ⟨10, 10⟩⟩])
      ["test.bmp"] = some 15 ∧
    (process_dir defaultConfig 5 ["test.bmp"] initState
      (DirEntry.mk "r" [⟨"test.bmp", some ⟨10, 10⟩⟩])).2 =
      some ⟨20, 2, some 15, 1⟩ :=
  ⟨by decide, by decide,
    c1_row_advance defaultConfig 5 ["test.bmp"] initState
      (DirEntry.mk "r" [⟨"test.bmp", some ⟨10, 10⟩⟩]) (by decide) 15 (by decide)⟩

/-- C2 counterexample: for an original image of height 1 and width 7
under the default configuration the resized width is 264 and the resized
height is 264 // 7 = 37, whereas round(width * original_height /
original_width) = round(264 / 7) = 38: the resize height is the floor,
not the round, of the exact quotient. -/
theorem c2_round_counterexample :
    (img_resize defaultConfig (ImgData.mk 1 7)).height = 37 ∧
    ((img_resize defaultConfig (ImgData.mk 1 7)).height : ℤ) ≠
      round ((((img_resize defaultConfig (ImgData.mk 1 7)).width : ℚ) *
        (ImgData.mk 1 7).height) / (ImgData.mk 1 7).width) := by
  constructor
  · rfl
  · have h1 : (((img_resize defaultConfig (ImgData.mk 1 7)).width : ℚ) *
        (ImgData.mk 1 7).height) / (ImgData.mk 1 7).width = 264 / 7 := by
      norm_num [img_resize, Config.img_insert_width, defaultConfig]
    rw [h1]
    have h2 : round ((264 : ℚ) / 7) = 38 := by
      rw [round_eq]
      rw [show (264 : ℚ) / 7 + 1 / 2 = 535 / 14 by norm_num]
      exact Int.floor_eq_iff.mpr (by norm_num)
    rw [h2]
    decide

/-- C2 (amended): for every loaded image with positive original width and
positive cell height, the resize produces width exactly cell_width_pix * 3
and height exactly the floor of width * original_height / original_width
(aspect ratio preserved within one pixel, rounding down), and the row
span equals the ceiling of resized_height / cell_height_pix. -/
theorem c2_resize_floor (cfg : Config) (img : ImgData)
    (hw : 0 < img.width) (hch : 0 < cfg.cell_height_pix) :
    (img_resize cfg img).width = cfg.cell_width_pix * 3 ∧
    (img_resize cfg img).height =
      ⌊(((img_resize cfg img).width : ℚ) * img.height) / img.width⌋₊ ∧
    rows_per_img_of cfg (img_resize cfg img).height =
      ⌈((img_resize cfg img).height : ℚ) / cfg.cell_height_pix⌉₊ := by
  refine ⟨rfl, ?_, rows_per_img_of_eq_ceil cfg _ hch⟩
  show img.height * cfg.img_insert_width / img.width =
    ⌊((cfg.img_insert_width : ℚ) * img.height) / img.width⌋₊
  rw [natDiv_eq_floor]
  congr 1
  push_cast
  ring

/-- Witness for c2_resize_floor at a 10 by 10 image under the default
configuration. -/
theorem c2_resize_floor_witness :
    0 < (ImgData.mk 10 10).width ∧ 0 < defaultConfig.cell_height_pix ∧
    ((img_resize defaultConfig (ImgData.mk 10 10)).width =
        defaultConfig.cell_width_pix * 3 ∧
     (img_resize defaultConfig (ImgData.mk 10 10)).height =
       ⌊(((img_resize defaultConfig (ImgData.mk 10 10)).width : ℚ) *
          (ImgData.mk 10 10).height) / (ImgData.mk 10 10).width⌋₊ ∧
     rows_per_img_of defaultConfig (img_resize defaultConfig (ImgData.mk 10 10)).height =
       ⌈((img_resize defaultConfig (ImgData.mk 10 10)).height : ℚ) /
          defaultConfig.cell_height_pix⌉₊) :=
  ⟨by decide, by decide,
    c2_resize_floor defaultConfig (ImgData.mk 10 10) (by decide) (by decide)⟩

/-- C3: with a nonexistent root directory the reference code does not
fail fast: pathlib glob yields nothing, the directory loop runs zero
times, the run completes normally, and the only write is the final
column-1 width assignment of 0, an essentially empty sheet. The claim
states the intended fail-fast behavior, which the code does not
implement. -/
theorem c3_missing_rootdir_completes :
    get_dir_list "test_dir" none = [] ∧
    execute defaultConfig "test_dir" none ["test.bmp", "red.bmp", "green.bmp", "blue.bmp"] =
      ([Event.setColWidth 1 ((0 : ℕ) : ℚ)], some initState) := by
  constructor
  · rfl
  · rfl

/-- C4: a directory containing zero regular files directly inside it is
processed with no cell text, no border, no image, and no change to the
layout cursor or any other engine state. -/
theorem c4_empty_dir_skipped (cfg : Config) (maxCols : Nat) (names : List String)
    (st : EngineState) (d : DirEntry) (h : d.files = []) :
    process_dir cfg maxCols names st d = ([], some st) :=
  process_dir_empty cfg maxCols names st d h

/-- Witness for c4_empty_dir_skipped at a concrete empty directory. -/
theorem c4_empty_dir_skipped_witness :
    (DirEntry.mk "d" []).files = [] ∧
    process_dir defaultConfig 17 ["a.bmp"] initState (DirEntry.mk "d" []) =
      ([], some initState) :=
  ⟨rfl, c4_empty_dir_skipped defaultConfig 17 ["a.bmp"] initState (DirEntry.mk "d" []) rfl⟩

/-- C5 counterexample: a run whose only directory contains a single
non-decodable file processes that failing slot exactly as the claim
describes, but the run then aborts with AttributeError in the border
loop because rows_per_img was never assigned; the claim that the run
does not abort is false as stated. -/
theorem c5_abort_counterexample :
    loadImage (DirEntry.mk "test_dir" [⟨"a.txt", none⟩]) "a.txt" = none ∧
    (execute defaultConfig "test_dir"
      (some (FSTree.node [⟨"a.txt", none⟩] [])) ["a.txt"]).2 = none := by
  constructor
  · rfl
  · rfl

/-- C5 (amended): for every filename slot whose image fails to load, the
slot step itself raises nothing: the filename label is still written at
(cursor_row, slot_col + 1), no image is embedded, the column cursor
advances by exactly cols_per_img, and nothing else changes; the run can
still abort later, at the border loop, when no image of any directory so
far ever loaded. -/
theorem c5_failed_load_slot (cfg : Config) (d : DirEntry) (st : EngineState)
    (n : String) (hfail : loadImage d n = none) :
    process_slot cfg d st n =
      ([Event.setText st.row (st.col + 1) n],
       { st with col := st.col + cols_per_img }) := by
  unfold process_slot
  rw [hfail]
  rfl

/-- Witness for c5_failed_load_slot at a concrete failing slot. -/
theorem c5_failed_load_slot_witness :
    loadImage (DirEntry.mk "d" []) "a.bmp" = none ∧
    process_slot defaultConfig (DirEntry.mk "d" []) initState "a.bmp" =
      ([Event.setText 2 3 "a.bmp"], ⟨2, 6, none, 0⟩) :=
  ⟨rfl, c5_failed_load_slot defaultConfig (DirEntry.mk "d" []) initState "a.bmp" rfl⟩

/-- C8: the engine is a deterministic function of the root directory
contents: two runs against equal directory trees, each on a fresh empty
surface, produce identical surfaces cell for cell and identical
outcomes; in the model the directory enumeration is a function of the
tree, hence deterministic. -/
theorem c8_deterministic (cfg : Config) (root : String) (names : List String)
    (fs1 fs2 : Option FSTree) (h : fs1 = fs2) :
    applyTrace (execute cfg root fs1 names).1 = applyTrace (execute cfg root fs2 names).1 ∧
    (execute cfg root fs1 names).2 = (execute cfg root fs2 names).2 := by
  subst h
  exact ⟨rfl, rfl⟩

/-- Witness for c8_deterministic at a concrete tree. -/
theorem c8_deterministic_witness :
    applyTrace (execute defaultConfig "r"
        (some (FSTree.node [⟨"x.bmp", none⟩] [])) ["x.bmp"]).1 =
      applyTrace (execute defaultConfig "r"
        (some (FSTree.node [⟨"x.bmp", none⟩] [])) ["x.bmp"]).1 ∧
    (execute defaultConfig "r" (some (FSTree.node [⟨"x.bmp", none⟩] [])) ["x.bmp"]).2 =
      (execute defaultConfig "r" (some (FSTree.node [⟨"x.bmp", none⟩] [])) ["x.bmp"]).2 :=
  c8_deterministic defaultConfig "r" ["x.bmp"]
    (some (FSTree.node [⟨"x.bmp", none⟩] []))
    (some (FSTree.node [⟨"x.bmp", none⟩] [])) rfl

/-- C6 counterexample: with a configured non-default cell width of 80
pixels, a completing run assigns the width of column 1 twice, once
during setup (with the pixels over 8 conversion) and once at the end,
not exactly once as the claim states. -/
theorem c6_twice_counterexample :
    (execute ⟨80, 18⟩ "r" (some (FSTree.node [⟨"test.bmp", some ⟨10, 10⟩⟩] []))
      ["test.bmp"]).2.isSome = true ∧
    (colWidthValues (execute ⟨80, 18⟩ "r"
      (some (FSTree.node [⟨"test.bmp", some ⟨10, 10⟩⟩] [])) ["test.bmp"]).1 1).length = 2 := by
  constructor
  · rfl
  · rfl

/-- C6 (amended): after a completing run, the final width of column 1 is
the raw maximum path-string length over the directories with files (0
when there is none), written by the last column-width assignment of the
trace; with the default cell width this assignment is the only one to
column 1, while a non-default cell width adds one earlier assignment
from the setup conversion. -/
theorem c6_colwidth_final (cfg : Config) (root : String) (fs : Option FSTree)
    (names : List String) (stF : EngineState)
    (hdone : (execute cfg root fs names).2 = some stF) :
    colWidthValues (execute cfg root fs names).1 1 =
      colWidthValues (format_cells cfg (1 + cols_per_img * names.length) max_rows) 1
        ++ [(stF.max_dir_len : ℚ)] ∧
    (cfg.cell_width_pix = 88 →
      colWidthValues (execute cfg root fs names).1 1 = [(stF.max_dir_len : ℚ)]) ∧
    (applyTrace (execute cfg root fs names).1).colWidthAt 1 = some (stF.max_dir_len : ℚ) ∧
    stF.max_dir_len = maxDirLen (get_dir_list root fs) := by
  rcases hr : run_dirs cfg (1 + cols_per_img * names.length) names initState
      (get_dir_list root fs) with ⟨evs, ost⟩
  rcases ost with _ | st1
  · rw [execute_eq_abort cfg root fs names evs hr] at hdone
    simp at hdone
  · have hex := execute_eq_done cfg root fs names evs st1 hr
    rw [hex] at hdone
    have heq : st1 = stF := by simpa using hdone
    subst heq
    have hrun_nosize : ∀ e ∈ evs, is_sizing e = false := by
      intro e he
      have h2 := run_dirs_no_sizing cfg (1 + cols_per_img * names.length) names
        (get_dir_list root fs) initState e
      rw [hr] at h2
      exact h2 he
    have hcvw_run : colWidthValues evs 1 = [] :=
      colWidthValues_nil_of_no_sizing 1 evs hrun_nosize
    have hmax : st1.max_dir_len = maxDirLen (get_dir_list root fs) := by
      have h3 := run_dirs_max_len cfg (1 + cols_per_img * names.length) names
        (get_dir_list root fs) initState st1 (by rw [hr])
      exact h3
    refine ⟨?_, ?_, ?_, hmax⟩
    · rw [hex]
      rw [colWidthValues_append, colWidthValues_append, hcvw_run, colWidthValues_single]
      simp
    · intro h88
      rw [hex, colWidthValues_append, colWidthValues_append, hcvw_run,
        colWidthValues_single, format_cells_default_width cfg _ _ h88]
      simp
    · rw [hex]
      exact colWidthAt_last _ 1 _

/-- Witness for c6_colwidth_final: a completing default-configuration
run over one directory with one loadable image. -/
theorem c6_colwidth_final_witness :
    (execute defaultConfig "r" (some (FSTree.node [⟨"test.bmp", some ⟨10, 10⟩⟩] []))
        ["test.bmp"]).2 = some ⟨20, 2, some 15, 1⟩ ∧
    (applyTrace (execute defaultConfig "r"
        (some (FSTree.node [⟨"test.bmp", some ⟨10, 10⟩⟩] [])) ["test.bmp"]).1).colWidthAt 1 =
      some (((⟨20, 2, some 15, 1⟩ : EngineState).max_dir_len : ℚ)) ∧
    (⟨20, 2, some 15, 1⟩ : EngineState).max_dir_len =
      maxDirLen (get_dir_list "r" (some (FSTree.node [⟨"test.bmp", some ⟨10, 10⟩⟩] []))) :=
  ⟨by decide,
   (c6_colwidth_final defaultConfig "r"
      (some (FSTree.node [⟨"test.bmp", some ⟨10, 10⟩⟩] [])) ["test.bmp"]
      ⟨20, 2, some 15, 1⟩ (by decide)).2.2.1,
   (c6_colwidth_final defaultConfig "r"
      (some (FSTree.node [⟨"test.bmp", some ⟨10, 10⟩⟩] [])) ["test.bmp"]
      ⟨20, 2, some 15, 1⟩ (by decide)).2.2.2⟩

/-- C7 counterexample: with cell width 80 and the four default target
filenames, the total column count is 1 + 4 * 4 = 17, yet the setup loop
(range(1, max_cols)) assigns no width to column 17, only to columns 1
through 16; the claim that every one of the total columns is sized is
false. -/
theorem c7_last_column_counterexample :
    1 + cols_per_img * 4 = 17 ∧
    colWidthValues (format_cells ⟨80, 18⟩ (1 + cols_per_img * 4) max_rows) 17 = [] ∧
    (colWidthValues (format_cells ⟨80, 18⟩ (1 + cols_per_img * 4) max_rows) 16).length = 1 := by
  refine ⟨rfl, rfl, rfl⟩

/-- C7 (amended): with a non-default cell width, the setup step assigns
width cell_width_pix / 8 exactly to columns 1 through cols_per_img * N,
one fewer than the 1 + cols_per_img * N total columns; with a
non-default cell height it assigns height cell_height_pix / 1.3 exactly
to rows 1 through max_rows - 1 = 999; with the default values it assigns
no column widths and no row heights. -/
theorem c7_format_ranges (cfg : Config) (N : Nat) :
    ((cfg.cell_width_pix ≠ 88 → ∀ c w,
        (Event.setColWidth c w ∈ format_cells cfg (1 + cols_per_img * N) max_rows ↔
          (1 ≤ c ∧ c ≤ cols_per_img * N ∧ w = (cfg.cell_width_pix : ℚ) / 8))) ∧
     (cfg.cell_width_pix = 88 → ∀ c w,
        Event.setColWidth c w ∉ format_cells cfg (1 + cols_per_img * N) max_rows)) ∧
    ((cfg.cell_height_pix ≠ 18 → ∀ r h,
        (Event.setRowHeight r h ∈ format_cells cfg (1 + cols_per_img * N) max_rows ↔
          (1 ≤ r ∧ r ≤ max_rows - 1 ∧ h = (cfg.cell_height_pix : ℚ) / (13 / 10)))) ∧
     (cfg.cell_height_pix = 18 → ∀ r h,
        Event.setRowHeight r h ∉ format_cells cfg (1 + cols_per_img * N) max_rows)) := by
  refine ⟨⟨?_, ?_⟩, ?_, ?_⟩
  · intro hw c w
    unfold format_cells
    rw [if_pos hw, List.mem_append]
    constructor
    · rintro (h1 | h2)
      · rcases List.mem_map.mp h1 with ⟨x, hx, heq⟩
        rcases List.mem_range'_1.mp hx with ⟨hx1, hx2⟩
        injection heq with e1 e2
        subst e1
        exact ⟨hx1, by omega, e2.symm⟩
      · exfalso
        by_cases hh : cfg.cell_height_pix ≠ 18
        · rw [if_pos hh] at h2
          rcases List.mem_map.mp h2 with ⟨x, _, heq⟩
          simp at heq
        · rw [if_neg hh] at h2
          simp at h2
    · rintro ⟨h1, h2, rfl⟩
      exact Or.inl (List.mem_map.mpr ⟨c, List.mem_range'_1.mpr ⟨h1, by omega⟩, rfl⟩)
  · intro hw c w hmem
    unfold format_cells at hmem
    rw [if_neg (by simp [hw]), List.nil_append] at hmem
    by_cases hh : cfg.cell_height_pix ≠ 18
    · rw [if_pos hh] at hmem
      rcases List.mem_map.mp hmem with ⟨x, _, heq⟩
      simp at heq
    · rw [if_neg hh] at hmem
      simp at hmem
  · intro hh r h
    unfold format_cells
    rw [if_pos hh, List.mem_append]
    constructor
    · rintro (h1 | h2)
      · exfalso
        by_cases hw : cfg.cell_width_pix ≠ 88
        · rw [if_pos hw] at h1
          rcases List.mem_map.mp h1 with ⟨x, _, heq⟩
          simp at heq
        · rw [if_neg hw] at h1
          simp at h1
      · rcases List.mem_map.mp h2 with ⟨x, hx, heq⟩
        rcases List.mem_range'_1.mp hx with ⟨hx1, hx2⟩
        injection heq with e1 e2
        subst e1
        refine ⟨hx1, ?_, e2.symm⟩
        have hmr : max_rows - 1 = 999 := rfl
        omega
    · rintro ⟨h1, h2, rfl⟩
      refine Or.inr (List.mem_map.mpr ⟨r, List.mem_range'_1.mpr ⟨h1, ?_⟩, rfl⟩)
      have hmr : max_rows - 1 = 999 := rfl
      omega
  · intro hh r h hmem
    unfold format_cells at hmem
    rw [List.mem_append] at hmem
    rcases hmem with h1 | h2
    · by_cases hw : cfg.cell_width_pix ≠ 88
      · rw [if_pos hw] at h1
        rcases List.mem_map.mp h1 with ⟨x, _, heq⟩
        simp at heq
      · rw [if_neg hw] at h1
        simp at h1
    · rw [if_neg (by simp [hh])] at h2
      simp at h2

/-- Witness for c7_format_ranges: with cell width 80 and N = 1, column 4
is assigned width 10 and column 5 (the last of the 5 total columns) is
not; with default height, row 1 gets no height. -/
theorem c7_format_ranges_witness :
    Event.setColWidth 4 (((80 : ℕ) : ℚ) / 8) ∈
      format_cells ⟨80, 18⟩ (1 + cols_per_img * 1) max_rows ∧
    ¬(Event.setColWidth 5 (((80 : ℕ) : ℚ) / 8) ∈
      format_cells ⟨80, 18⟩ (1 + cols_per_img * 1) max_rows) ∧
    Event.setRowHeight 1 (((18 : ℕ) : ℚ) / (13 / 10)) ∉
      format_cells ⟨80, 18⟩ (1 + cols_per_img * 1) max_rows := by
  refine ⟨?_, ?_, ?_⟩
  · exact (((c7_format_ranges ⟨80, 18⟩ 1).1.1 (by decide) 4
      (((80 : ℕ) : ℚ) / 8)).mpr ⟨by decide, by decide, rfl⟩)
  · intro hmem
    have h5 := ((c7_format_ranges ⟨80, 18⟩ 1).1.1 (by decide) 5
      (((80 : ℕ) : ℚ) / 8)).mp hmem
    have h5a : (5 : ℕ) ≤ 4 := h5.2.1
    omega
  · exact (c7_format_ranges ⟨80, 18⟩ 1).2.2 (by decide) 1 _

/-- C9: if the first directory with files yields no successfully loaded
image, the run dies with AttributeError at the border loop: no final
state is produced, and no right or right-top border is ever written in
column 1. For any later directory with files and no successful load, the
leftover rows_per_img value r of an earlier directory is reused: the
border loop spans r + 3 rows and the row advances by r + 3. -/
theorem c9_unset_row_span (cfg : Config) (root : String) (fs : Option FSTree)
    (names : List String) (pre post : List DirEntry) (d : DirEntry)
    (hsplit : get_dir_list root fs = pre ++ d :: post)
    (hpre : ∀ d2 ∈ pre, d2.files = [])
    (hne : d.files ≠ [])
    (hfail : ∀ n ∈ names, loadImage d n = none) :
    ((execute cfg root fs names).2 = none ∧
      ∀ e ∈ (execute cfg root fs names).1, is_left_border e = false) ∧
    ∀ (mc : Nat) (st2 : EngineState) (d2 : DirEntry) (r2 : Nat),
      st2.rows_per_img = some r2 → d2.files ≠ [] →
      (∀ n ∈ names, loadImage d2 n = none) →
      (process_dir cfg mc names st2 d2).2 =
        some { row := st2.row + r2 + 3, col := 2, rows_per_img := some r2,
               max_dir_len := max st2.max_dir_len d2.path.length } ∧
      ((List.range (r2 + 3)).map fun dr => Event.setBorder (st2.row + dr) 1
          (if dr = 0 then BorderKind.right_top else BorderKind.right)) <:+
        (process_dir cfg mc names st2 d2).1 := by
  constructor
  · have hne2 : ¬d.files.isEmpty := by simp [hne]
    have hnone : (last_row_span cfg d names).or initState.rows_per_img = none := by
      rw [last_row_span_none cfg d names hfail]
      rfl
    have habort := process_dir_eq_abort cfg (1 + cols_per_img * names.length) names
      initState d hne2 hnone
    have hrun : run_dirs cfg (1 + cols_per_img * names.length) names initState
        (get_dir_list root fs) =
        ((process_dir cfg (1 + cols_per_img * names.length) names initState d).1, none) := by
      rw [hsplit, run_dirs_skip cfg _ names pre (d :: post) initState hpre, run_dirs_cons,
        habort]
    have hex := execute_eq_abort cfg root fs names _ hrun
    constructor
    · rw [hex]
    · intro e he
      rw [hex] at he
      rcases List.mem_append.mp he with h1 | h2
      · exact format_cells_border_free cfg _ _ e h1
      · have hE : (process_dir cfg (1 + cols_per_img * names.length) names initState d).1 =
            (List.range' 1 (1 + cols_per_img * names.length)).map
              (fun c => Event.setBorder initState.row c BorderKind.top)
            ++ Event.setText initState.row 1 d.path
              :: (slots_fold cfg d names
                    { initState with
                        max_dir_len := max initState.max_dir_len d.path.length }).1 := by
          rw [habort]
        rw [hE] at h2
        rcases List.mem_append.mp h2 with h3 | h4
        · rcases List.mem_map.mp h3 with ⟨x, _, heq⟩
          rw [← heq]
          simp [is_left_border, Bool.and_false]
        · rcases List.mem_cons.mp h4 with heq | h5
          · rw [heq]
            rfl
          · exact (slots_fold_events cfg d names _ e h5).1
  · intro mc st2 d2 r2 hst hne3 hfail2
    have hne4 : ¬d2.files.isEmpty := by simp [hne3]
    have hsome : (last_row_span cfg d2 names).or st2.rows_per_img = some r2 := by
      rw [last_row_span_none cfg d2 names hfail2, hst]
      rfl
    have hdone := process_dir_eq_done cfg mc names st2 d2 hne4 r2 hsome
    constructor
    · rw [hdone]
    · rw [hdone]
      exact ⟨(List.range' 1 mc).map (fun c => Event.setBorder st2.row c BorderKind.top)
          ++ Event.setText st2.row 1 d2.path
            :: (slots_fold cfg d2 names
                  { st2 with max_dir_len := max st2.max_dir_len d2.path.length }).1,
        by simp [List.append_assoc, List.cons_append]⟩

/-- Witness for c9_unset_row_span: a root with no files whose only child
directory holds one undecodable file; the run aborts with no final
state, and a later directory step with leftover row span 5 advances the
row by 5 + 3. -/
theorem c9_unset_row_span_witness :
    (execute defaultConfig "r"
      (some (FSTree.node [] [("a", FSTree.node [⟨"f.txt", none⟩] [])]))
      ["f.txt"]).2 = none ∧
    (process_dir defaultConfig 5 ["f.txt"] ⟨10, 2, some 5, 0⟩
      (DirEntry.mk "r\\a" [⟨"f.txt", none⟩])).2 = some ⟨18, 2, some 5, 3⟩ :=
  ⟨(c9_unset_row_span defaultConfig "r"
      (some (FSTree.node [] [("a", FSTree.node [⟨"f.txt", none⟩] [])]))
      ["f.txt"] [DirEntry.mk "r" []] [] (DirEntry.mk "r\\a" [⟨"f.txt", none⟩])
      (by decide) (by decide) (by decide) (by decide)).1.1,
   ((c9_unset_row_span defaultConfig "r"
      (some (FSTree.node [] [("a", FSTree.node [⟨"f.txt", none⟩] [])]))
      ["f.txt"] [DirEntry.mk "r" []] [] (DirEntry.mk "r\\a" [⟨"f.txt", none⟩])
      (by decide) (by decide) (by decide) (by decide)).2 5 ⟨10, 2, some 5, 0⟩
      (DirEntry.mk "r\\a" [⟨"f.txt", none⟩]) 5 rfl (by decide) (by decide)).1⟩

/-- C10: the directory enumeration includes the root itself (first) and
every nested subdirectory at every depth; consequently, when the root
directly contains at least one regular file, the root receives its own
row-block, with its path written as the label in column 1 of the first
cursor row. -/
theorem c10_enumerates_root (cfg : Config) (root : String) (t : FSTree)
    (names : List String) :
    ((get_dir_list root (some t)).map DirEntry.path).head? = some root ∧
    (∀ q, SubdirPath root t q → q ∈ (get_dir_list root (some t)).map DirEntry.path) ∧
    (t.files ≠ [] → Event.setText 2 1 root ∈ (execute cfg root (some t) names).1) := by
  refine ⟨?_, ?_, ?_⟩
  · rw [get_dir_list_some]
    rfl
  · intro q hq
    exact subdirPath_mem_dirList root t q hq
  · intro hfiles
    have hd : get_dir_list root (some t) =
        DirEntry.mk root t.files :: dirListChildren root t.subdirs :=
      get_dir_list_some root t
    have hmem : Event.setText 2 1 root ∈ (process_dir cfg (1 + cols_per_img * names.length)
        names initState (DirEntry.mk root t.files)).1 :=
      process_dir_label_mem cfg (1 + cols_per_img * names.length) names initState
        (DirEntry.mk root t.files) hfiles
    have hrunmem : Event.setText 2 1 root ∈ (run_dirs cfg (1 + cols_per_img * names.length)
        names initState (get_dir_list root (some t))).1 := by
      rw [hd]
      exact run_dirs_head_mem cfg _ names initState _ _ _ hmem
    exact execute_mem_run cfg root (some t) names _ hrunmem

/-- Witness for c10_enumerates_root: a root with one (undecodable) file
and one nested empty subdirectory; the child path is enumerated and the
root label is written at (2, 1). -/
theorem c10_enumeration_witness :
    ("r\\s" ∈ ((get_dir_list "r"
        (some (FSTree.node [⟨"x.bmp", none⟩] [("s", FSTree.node [] [])]))).map
          DirEntry.path)) ∧
    Event.setText 2 1 "r" ∈ (execute defaultConfig "r"
      (some (FSTree.node [⟨"x.bmp", none⟩] [("s", FSTree.node [] [])])) ["x.bmp"]).1 := by
  constructor
  · exact (c10_enumerates_root defaultConfig "r"
      (FSTree.node [⟨"x.bmp", none⟩] [("s", FSTree.node [] [])]) ["x.bmp"]).2.1 "r\\s"
      (SubdirPath.step "r" [⟨"x.bmp", none⟩] [("s", FSTree.node [] [])] "s"
        (FSTree.node [] []) "r\\s" (by simp) (SubdirPath.refl _ _))
  · exact (c10_enumerates_root defaultConfig "r"
      (FSTree.node [⟨"x.bmp", none⟩] [("s", FSTree.node [] [])]) ["x.bmp"]).2.2 (by decide)

end PasteApp
